import Mathlib

/-!
Shallow embedding of the lensing repository core: the Kaiser-Squires map
reconstruction of src/kappa/map.py and the radial shear profile builder of
src/shear/profile.py. Machine floats are modelled by the real numbers for
the Fourier pipeline and by an arbitrary linear ordered field for the
profile statistics, numpy arrays by lists or index functions, and raised
exceptions by an explicit error type.
-/

/-! ## Fourier side: src/kappa/map.py -/

/-- Frequency grid of scipy fftpack.fftfreq: entry i of fftfreq(n, d) is
i/(n*d) when 2*i < n and (i-n)/(n*d) otherwise, matching the standard FFT
frequency ordering (zero first, then positive, then negative). -/
noncomputable def fftfreq (n : ℕ) (d : ℝ) (i : ℕ) : ℝ :=
  if 2 * i < n then (i : ℝ) / (n * d) else ((i : ℝ) - n) / (n * d)

/-- Embedding of KappaMap._conjugate_inversion_kernel: the Fourier space
inversion kernel (kx^2 - ky^2 - 2j kx ky) / (kx^2 + ky^2) on the fftfreq
grid with indexing ij, with the DC entry [0, 0] overwritten to 0 after the
elementwise formula is evaluated. -/
noncomputable def conjugate_inversion_kernel (nbins : ℕ) (dx dy : ℝ) (i j : ℕ) : ℂ :=
  if i = 0 ∧ j = 0 then 0
  else
    (((fftfreq nbins dx i : ℝ) : ℂ) ^ 2 - ((fftfreq nbins dy j : ℝ) : ℂ) ^ 2
        - 2 * Complex.I * ((fftfreq nbins dx i : ℝ) : ℂ) * ((fftfreq nbins dy j : ℝ) : ℂ))
      / (((fftfreq nbins dx i : ℝ) : ℂ) ^ 2 + ((fftfreq nbins dy j : ℝ) : ℂ) ^ 2)

/-- Forward 2D discrete Fourier transform on an n by n complex grid,
the mathematical contract of scipy fftpack.fft2. -/
noncomputable def fft2 (n : ℕ) (f : ℕ → ℕ → ℂ) (k l : ℕ) : ℂ :=
  ∑ a ∈ Finset.range n, ∑ b ∈ Finset.range n,
    f a b * Complex.exp (-(2 * (Real.pi : ℂ) * Complex.I) * ((k : ℂ) * a + (l : ℂ) * b) / n)

/-- Inverse 2D discrete Fourier transform on an n by n complex grid with
the 1/n^2 normalization, the mathematical contract of scipy fftpack.ifft2. -/
noncomputable def ifft2 (n : ℕ) (g : ℕ → ℕ → ℂ) (a b : ℕ) : ℂ :=
  (1 / ((n : ℂ) ^ 2)) * ∑ k ∈ Finset.range n, ∑ l ∈ Finset.range n,
    g k l * Complex.exp ((2 * (Real.pi : ℂ) * Complex.I) * ((k : ℂ) * a + (l : ℂ) * b) / n)

/-- Square shear map produced by the external Shear Field Builder: grid
side n, coordinate grids px and py and ellipticity component grids e1, e2,
all indexed row-major as in the numpy source. Out of range indices are
irrelevant to every statement below. -/
structure ShearMap where
  n : ℕ
  px : ℕ → ℕ → ℝ
  py : ℕ → ℕ → ℝ
  e1 : ℕ → ℕ → ℝ
  e2 : ℕ → ℕ → ℝ

/-- Reconstructed map object: the fields stored on self by
KappaMap.__init__ that the claims are about. -/
structure KappaMap where
  px : ℕ → ℕ → ℝ
  py : ℕ → ℕ → ℝ
  bin_size : ℝ × ℝ
  kappa : ℕ → ℕ → ℂ

/-- Embedding of KappaMap.__init__ from the already built shear map on:
px is the shear map px grid, py is assigned from the shear map px grid as
in the source line self.py = self.shear_map.px, the bin sizes are the
first coordinate steps of the stored grids, and kappa is the inverse 2D
DFT of the forward 2D DFT of e1 + i e2 multiplied elementwise by the
conjugate inversion kernel. -/
noncomputable def mkKappaMap (sm : ShearMap) : KappaMap :=
  let px := sm.px
  let py := sm.px
  let dx := px 1 0 - px 0 0
  let dy := py 1 0 - py 0 0
  let T_shear := fft2 sm.n (fun a b => (sm.e1 a b : ℂ) + (sm.e2 a b : ℂ) * Complex.I)
  let T_Dconj := conjugate_inversion_kernel sm.n dx dy
  { px := px
    py := py
    bin_size := (dx, dy)
    kappa := fun a b => ifft2 sm.n (fun k l => T_shear k l * T_Dconj k l) a b }

/-- E-mode map: real part of kappa, as read off in KappaMap.QuickPlot and
KappaMap.gaussian_filter. -/
noncomputable def kE (km : KappaMap) (i j : ℕ) : ℝ := (km.kappa i j).re

/-- B-mode map: imaginary part of kappa, as read off in KappaMap.QuickPlot
and KappaMap.gaussian_filter. -/
noncomputable def kB (km : KappaMap) (i j : ℕ) : ℝ := (km.kappa i j).im

/-! ## Profile side: src/shear/profile.py -/

/-- Exceptions that a Profile method can raise. The constructor
invalidInputError is the error class named by the specification; the other
constructors are the exceptions the numpy based source can actually raise
on the modelled paths. -/
inductive PyError where
  | valueError : PyError
  | zeroDivisionError : PyError
  | nameError : String → PyError
  | invalidInputError : PyError
deriving DecidableEq

/-- Per galaxy inputs to the binning loop of Profile.__init__: d is the
projected distance dist_hMpc (computed upstream from the external
gentools.sphere_angular_vector and the per galaxy Mpc scale), et and ex
are the tangential and cross ellipticities from the external
gentools.polar_rotation, w is the catalog weight, m the multiplicative
bias, and sc the critical surface density from Profile.set_sigma_critic. -/
structure SourceGal (α : Type) where
  d : α
  et : α
  ex : α
  w : α
  m : α
  sc : α
deriving DecidableEq

/-- Physical constants of src/shear/profile.py, in SI units. -/
noncomputable def cvel : ℝ := 299792458
/-- Gravitational constant of src/shear/profile.py. -/
noncomputable def Gconst : ℝ := 6.670e-11
/-- Parsec in meters, from src/shear/profile.py. -/
noncomputable def pcm : ℝ := 3.085678e16
/-- Solar mass in kilograms, from src/shear/profile.py. -/
noncomputable def Msun : ℝ := 1.989e30

/-- Embedding of Profile.set_Mpc_scale: one arcsecond in radians times the
lens distance. -/
noncomputable def Mpc_scale (dl : ℝ) : ℝ := dl * (Real.pi / 180 * (1 / 3600))

/-- Embedding of Profile.set_sigma_critic with beta = dls/ds, the per
galaxy critical surface density. -/
noncomputable def sigma_critic (dl ds dls : ℝ) : ℝ :=
  cvel ^ 2 / (4 * Real.pi * Gconst * (dl * 1e6 * pcm)) * (1 / (dls / ds)) * (pcm ^ 2 / Msun)

/-- Projected distance of a galaxy in Mpc/h as computed in
Profile.__init__ from the angular separation dist in degrees. -/
noncomputable def dist_hMpc (dist dl h : ℝ) : ℝ := dist * 3600 * Mpc_scale dl * h

/-- Embedding of numpy digitize on an increasing edge list with the
default right=False: the number of edges that are at most x. -/
def digitize {α : Type} [LinearOrderedField α] (x : α) (bins : List α) : ℕ :=
  bins.countP (fun b => decide (b ≤ x))

/-- Galaxies falling in radial bin i: the source computes
digit = digitize(dist_hMpc, bins) - 1 and masks on digit == i. -/
def binMembers {α : Type} [LinearOrderedField α]
    (gals : List (SourceGal α)) (bins : List α) (i : ℕ) : List (SourceGal α) :=
  gals.filter (fun g => decide ((digitize g.d bins : ℤ) - 1 = (i : ℤ)))

/-- Galaxy count N[i] of bin i. -/
def binCount {α : Type} [LinearOrderedField α]
    (gals : List (SourceGal α)) (bins : List α) (i : ℕ) : ℕ :=
  (binMembers gals bins i).length

/-- Per galaxy weights of bin i, the source line
weight = cat[weight][mask] / sigma_critic[mask]**2. -/
def weightsAt {α : Type} [LinearOrderedField α]
    (gals : List (SourceGal α)) (bins : List α) (i : ℕ) : List α :=
  (binMembers gals bins i).map (fun g => g.w / g.sc ^ 2)

/-- Sum of elementwise products, the numerator of a numpy weighted
average. -/
def dotL {α : Type} [LinearOrderedField α] (xs ws : List α) : α :=
  ((xs.zip ws).map (fun p => p.1 * p.2)).sum

/-- Weighted average of numpy average(xs, weights=ws). -/
def wavg {α : Type} [LinearOrderedField α] (xs ws : List α) : α :=
  dotL xs ws / ws.sum

/-- Multiplicative calibration factor m_cal of bin i: initialized to one
and set to 1 + average(m, weights) for a non empty bin. -/
def mcalAt {α : Type} [LinearOrderedField α]
    (gals : List (SourceGal α)) (bins : List α) (i : ℕ) : α :=
  if binCount gals bins i = 0 then 1
  else 1 + wavg ((binMembers gals bins i).map SourceGal.m) (weightsAt gals bins i)

/-- Tangential shear estimate of bin i: zero for an empty bin, otherwise
average(et * sigma_critic, weights) / m_cal. -/
def shearAt {α : Type} [LinearOrderedField α]
    (gals : List (SourceGal α)) (bins : List α) (i : ℕ) : α :=
  if binCount gals bins i = 0 then 0
  else wavg ((binMembers gals bins i).map (fun g => g.et * g.sc)) (weightsAt gals bins i)
         / mcalAt gals bins i

/-- Cross shear estimate of bin i: zero for an empty bin, otherwise
average(ex * sigma_critic, weights) / m_cal. -/
def ceroAt {α : Type} [LinearOrderedField α]
    (gals : List (SourceGal α)) (bins : List α) (i : ℕ) : α :=
  if binCount gals bins i = 0 then 0
  else wavg ((binMembers gals bins i).map (fun g => g.ex * g.sc)) (weightsAt gals bins i)
         / mcalAt gals bins i

/-- Analytic statistical error of bin i with sq standing for the real
square root: zero for an empty bin, otherwise
sqrt(sum((0.25 w sc)^2) / (sum w)^2) / m_cal. -/
def statErrorAt {α : Type} [LinearOrderedField α] (sq : α → α)
    (gals : List (SourceGal α)) (bins : List α) (i : ℕ) : α :=
  if binCount gals bins i = 0 then 0
  else
    sq ((((binMembers gals bins i).zip (weightsAt gals bins i)).map
          (fun p => ((1 / 4 : α) * p.2 * p.1.sc) ^ 2)).sum
        / (weightsAt gals bins i).sum ^ 2)
      / mcalAt gals bins i

/-- Modelled from the spec: deterministic stand in for the numpy global
random generator used through astropy NumpyRNGContext and
astropy.stats.bootstrap, whose implementations are outside the
repository. The spec only requires that resampling with a fixed seed is a
deterministic function of the seed and of the requested sample shape; a
64 bit linear congruential step realizes that contract. -/
def lcg (s : ℕ) : ℕ := (6364136223846793005 * s + 1442695040888963407) % (2 ^ 64)

/-- State of the numpy global generator right after seeding with a given
seed, as NumpyRNGContext(seed) does on entry. -/
def seedState (seed : ℕ) : ℕ := lcg seed

/-- Draw k resampling indices below the given bound, threading the
generator state. -/
def sampleList (bound : ℕ) : ℕ → ℕ → List ℕ × ℕ
  | 0, s => ([], s)
  | k + 1, s =>
      let s' := lcg s
      let rest := sampleList bound k s'
      ((s' % bound) :: rest.1, rest.2)

/-- Modelled from the spec: astropy.stats.bootstrap(index, nboot) with the
default bootfunc, nboot rows of with replacement index samples of the full
sample size, using the seeded global generator. -/
def bootRows (bound : ℕ) : ℕ → ℕ → List (List ℕ) × ℕ
  | 0, s => ([], s)
  | k + 1, s =>
      let row := sampleList bound bound s
      let rest := bootRows bound k row.2
      (row.1 :: rest.1, rest.2)

/-- Numpy fancy indexing xs[idx] for index arrays produced by the
resampler; indices are always in range there. -/
def gather {α : Type} [LinearOrderedField α] (xs : List α) (idx : List ℕ) : List α :=
  idx.map (fun i => xs.getD i 0)

/-- Arithmetic mean of numpy mean. -/
def meanL {α : Type} [LinearOrderedField α] (xs : List α) : α :=
  xs.sum / (xs.length : α)

/-- Population standard deviation of numpy std, with sq standing for the
real square root. -/
def stdev {α : Type} [LinearOrderedField α] (sq : α → α) (xs : List α) : α :=
  sq (meanL (xs.map (fun x => (x - meanL xs) ^ 2)))

/-- Embedding of Profile._boot_error: the ambient generator state g is
saved by NumpyRNGContext, the generator is seeded with the constant 1, the
bootstrap rows are drawn from the seeded state, the two weighted mean
series are reduced to their standard deviations, and the saved ambient
state is restored on exit. -/
def bootError {α : Type} [LinearOrderedField α] (sq : α → α)
    (shear cero weight : List α) (nboot : ℕ) (g : ℕ) : (α × α) × ℕ :=
  let rows := (bootRows shear.length nboot (seedState 1)).1
  let shear_means := rows.map (fun r => wavg (gather shear r) (gather weight r))
  let cero_means := rows.map (fun r => wavg (gather cero r) (gather weight r))
  ((stdev sq shear_means, stdev sq cero_means), g)

/-- Bootstrap error pair of bin i, the call
_boot_error(et*sc, ex*sc, weight, boot_n) of the source loop. -/
def bootErrAt {α : Type} [LinearOrderedField α] (sq : α → α)
    (gals : List (SourceGal α)) (bins : List α) (nboot : ℕ) (g : ℕ) (i : ℕ) : α × α :=
  (bootError sq ((binMembers gals bins i).map (fun x => x.et * x.sc))
      ((binMembers gals bins i).map (fun x => x.ex * x.sc))
      (weightsAt gals bins i) nboot g).1

/-- Bootstrap tangential shear error of bin i: left at zero for an empty
bin or when boot_flag is unset, otherwise err_t / m_cal. -/
def shearErrorAt {α : Type} [LinearOrderedField α] (sq : α → α)
    (gals : List (SourceGal α)) (bins : List α) (bflag : Bool) (nboot : ℕ) (g : ℕ)
    (i : ℕ) : α :=
  if binCount gals bins i = 0 then 0
  else if bflag then (bootErrAt sq gals bins nboot g i).1 / mcalAt gals bins i else 0

/-- Bootstrap cross shear error of bin i: left at zero for an empty bin or
when boot_flag is unset, otherwise err_x / m_cal. -/
def ceroErrorAt {α : Type} [LinearOrderedField α] (sq : α → α)
    (gals : List (SourceGal α)) (bins : List α) (bflag : Bool) (nboot : ℕ) (g : ℕ)
    (i : ℕ) : α :=
  if binCount gals bins i = 0 then 0
  else if bflag then (bootErrAt sq gals bins nboot g i).2 / mcalAt gals bins i else 0

/-- Nondecreasing test on consecutive entries, one direction of the
monotonicity check numpy digitize performs on its bins argument. -/
def monoND {α : Type} [LinearOrderedField α] : List α → Bool
  | [] => true
  | [_] => true
  | a :: b :: t => decide (a ≤ b) && monoND (b :: t)

/-- Nonincreasing test on consecutive entries, the other direction of the
numpy digitize monotonicity check. -/
def monoNI {α : Type} [LinearOrderedField α] : List α → Bool
  | [] => true
  | [_] => true
  | a :: b :: t => decide (b ≤ a) && monoNI (b :: t)

/-- Monotonicity check of numpy digitize: bins must be monotone in one of
the two directions, else digitize raises ValueError. -/
def npMonotone {α : Type} [LinearOrderedField α] (bins : List α) : Bool :=
  monoND bins || monoNI bins

/-- Strictly increasing test on consecutive entries, used to phrase the
hypotheses of the binning claims. -/
def chainLtB {α : Type} [LinearOrderedField α] : List α → Bool
  | [] => true
  | [_] => true
  | a :: b :: t => decide (a < b) && chainLtB (b :: t)

/-- Bin centers r_hMpc = 0.5 * (bins[:-1] + bins[1:]). -/
def midpoints {α : Type} [LinearOrderedField α] (bins : List α) : List α :=
  (bins.zip bins.tail).map (fun p => (1 / 2 : α) * (p.1 + p.2))

/-- Signal that bin i would make numpy average raise ZeroDivisionError:
the bin is non empty while its weights sum to exactly zero. -/
def hazardAt {α : Type} [LinearOrderedField α]
    (gals : List (SourceGal α)) (bins : List α) (i : ℕ) : Bool :=
  decide (binCount gals bins i ≠ 0) && decide ((weightsAt gals bins i).sum = 0)

/-- Some bin of the profile triggers the zero weight hazard. -/
def hazardAny {α : Type} [LinearOrderedField α]
    (gals : List (SourceGal α)) (bins : List α) : Bool :=
  (List.range (bins.length - 1)).any (hazardAt gals bins)

/-- Arrays stored on self by Profile.__init__, aligned by bin index. -/
structure ProfileOut (α : Type) where
  r_hMpc : List α
  shear : List α
  cero : List α
  shear_error : List α
  cero_error : List α
  stat_error : List α
  N : List ℕ
deriving DecidableEq

/-- Per bin arrays assembled by the loop of Profile.__init__ on the non
raising path. -/
def profileOut {α : Type} [LinearOrderedField α] (sq : α → α)
    (gals : List (SourceGal α)) (bins : List α) (bflag : Bool) (nboot : ℕ) (g : ℕ) :
    ProfileOut α :=
  { r_hMpc := midpoints bins
    shear := (List.range (bins.length - 1)).map (shearAt gals bins)
    cero := (List.range (bins.length - 1)).map (ceroAt gals bins)
    shear_error := (List.range (bins.length - 1)).map (shearErrorAt sq gals bins bflag nboot g)
    cero_error := (List.range (bins.length - 1)).map (ceroErrorAt sq gals bins bflag nboot g)
    stat_error := (List.range (bins.length - 1)).map (statErrorAt sq gals bins)
    N := (List.range (bins.length - 1)).map (binCount gals bins) }

/-- Embedding of Profile.__init__ on the user supplied edge list path: the
numpy digitize call raises ValueError on non monotone edges, a non empty
bin whose weights sum to zero makes numpy average raise
ZeroDivisionError, and otherwise the per bin arrays are produced. The
galaxy records already carry the upstream per galaxy quantities, and g is
the ambient global generator state seen by the bootstrap calls. -/
def buildProfile {α : Type} [LinearOrderedField α] (sq : α → α)
    (gals : List (SourceGal α)) (bins : List α) (bflag : Bool) (nboot : ℕ) (g : ℕ) :
    Except PyError (ProfileOut α) :=
  if npMonotone bins = false then Except.error PyError.valueError
  else if hazardAny gals bins = true then Except.error PyError.zeroDivisionError
  else Except.ok (profileOut sq gals bins bflag nboot g)

/-! ## Serialization: Profile.write_to of src/shear/profile.py -/

/-- Names bound at module level in src/shear/profile.py: the import
bindings of lines 1 to 9 plus the module constants and the class. The
datetime module is not among them. -/
def profileModuleNames : List String :=
  ["os", "platform", "np", "pd", "fits", "Table", "bootstrap",
   "NumpyRNGContext", "LambdaCDM", "gentools", "cosmo", "cvel", "G", "pc",
   "Msun", "Profile"]

/-- Python str.ljust: pad on the right with spaces up to the given
width. -/
def ljust (s : String) (width : ℕ) : String :=
  s ++ String.mk (List.replicate (width - s.length) ' ')

/-- Run of k dash characters. -/
def dashes (k : ℕ) : String :=
  String.mk (List.replicate k '-')

/-- Data rows of numpy savetxt on the stacked profile columns, one row per
bin, in the column order of the source, with fmt the rendering of one
number under the format %12.6f. -/
def profileRows {α : Type} [LinearOrderedField α] (fmt : α → String) (p : ProfileOut α) :
    List String :=
  (List.range p.r_hMpc.length).map (fun i =>
    String.intercalate (" ")
      ([p.r_hMpc, p.shear, p.shear_error, p.cero, p.cero_error,
        p.stat_error].map (fun c => fmt (c.getD i 0)))
      ++ "\n")

/-- Embedding of Profile.write_to: the lines appended to the file in
order, paired with the exception that interrupts the method, if any. The
source references datetime.datetime.now() although the module never
imports datetime, so after the opening comment lines the name lookup
fails with NameError and nothing further is written. The now argument
stands for the wall clock string and fmt for the %12.6f rendering; both
are only used on the unreachable branch. -/
def writeTo {α : Type} [LinearOrderedField α] (fmt : α → String) (p : ProfileOut α)
    (header : List (String × String)) (colnames : Bool) (now : String) :
    List String × Option PyError :=
  let pre := ["# " ++ dashes 48 ++ "\n", "# Lensing profile " ++ "\n"]
      ++ header.map (fun kv => "# " ++ ljust kv.1 14 ++ " = " ++ kv.2 ++ "\n")
      ++ ["# " ++ "\n"]
  if profileModuleNames.contains ("datetime") then
    (pre ++ ["# " ++ now ++ "\n", "# " ++ dashes 48 ++ "\n",
        (if colnames then " " else "# ")
          ++ "r_hMpc, shear, shear_error, cero, cero_error, stat_error \n"]
      ++ profileRows fmt p, none)
  else (pre, some (PyError.nameError ("datetime")))

/-! ## Claims about the map reconstruction -/

/-- C1: for every square N by N shear grid, kappa is the inverse 2D
discrete Fourier transform of the elementwise product of the forward 2D
DFT of the complex field e1 + i e2 with the conjugate inversion kernel,
and the E-mode map is the real part of the result while the B-mode map is
the imaginary part. -/
theorem kappa_is_inverse_dft_of_kernel_product (sm : ShearMap) (a b : ℕ) :
    (mkKappaMap sm).kappa a b
      = ifft2 sm.n (fun k l =>
          fft2 sm.n (fun p q => (sm.e1 p q : ℂ) + (sm.e2 p q : ℂ) * Complex.I) k l
            * conjugate_inversion_kernel sm.n ((mkKappaMap sm).bin_size.1)
                ((mkKappaMap sm).bin_size.2) k l) a b
    ∧ kE (mkKappaMap sm) a b = ((mkKappaMap sm).kappa a b).re
    ∧ kB (mkKappaMap sm) a b = ((mkKappaMap sm).kappa a b).im :=
  ⟨rfl, rfl, rfl⟩

/-- C10: the stored py grid is assigned from the shear map px grid, the
second bin size component is computed from the x grid and always equals
the first, the whole construction ignores the actual py grid of the
shear map, and the inversion kernel receives the x spacing for both
frequency axes. -/
theorem kappa_map_py_assigned_from_px (sm : ShearMap) (py' : ℕ → ℕ → ℝ) :
    (mkKappaMap sm).py = sm.px
    ∧ (mkKappaMap sm).bin_size.2 = sm.px 1 0 - sm.px 0 0
    ∧ (mkKappaMap sm).bin_size.2 = (mkKappaMap sm).bin_size.1
    ∧ mkKappaMap { sm with py := py' } = mkKappaMap sm
    ∧ (mkKappaMap sm).kappa = fun a b => ifft2 sm.n (fun k l =>
        fft2 sm.n (fun p q => (sm.e1 p q : ℂ) + (sm.e2 p q : ℂ) * Complex.I) k l
          * conjugate_inversion_kernel sm.n (sm.px 1 0 - sm.px 0 0)
              (sm.px 1 0 - sm.px 0 0) k l) a b :=
  ⟨rfl, rfl, rfl, rfl, rfl⟩

/-! ## Claims about the profile builder -/

/-- C7: bootstrap error estimation is deterministic: the resampling seed
inside _boot_error is the constant 1, so neither the result of
_boot_error nor the whole constructed profile depends on the ambient
generator state, and two runs on identical inputs agree. -/
theorem bootstrap_fixed_seed_deterministic {α : Type} [LinearOrderedField α]
    (sq : α → α) (gals : List (SourceGal α)) (bins : List α) (bflag : Bool)
    (nboot : ℕ) (sh ce w : List α) (g g' : ℕ) :
    buildProfile sq gals bins bflag nboot g = buildProfile sq gals bins bflag nboot g'
    ∧ (bootError sq sh ce w nboot g).1 = (bootError sq sh ce w nboot g').1 :=
  ⟨rfl, rfl⟩

/-! ## Claims about serialization -/

/-- C9: every call of Profile.write_to stops with a NameError on the
unimported datetime module before completing the header block: the
exception is always raised and only the opening comment lines are
written, never the timestamp, the closing separator, the column header or
any data row. -/
theorem write_to_always_name_error {α : Type} [LinearOrderedField α]
    (fmt : α → String) (p : ProfileOut α) (header : List (String × String))
    (colnames : Bool) (now : String) :
    (writeTo fmt p header colnames now).2 = some (PyError.nameError ("datetime"))
    ∧ (writeTo fmt p header colnames now).1
        = ["# " ++ dashes 48 ++ "\n", "# Lensing profile " ++ "\n"]
          ++ header.map (fun kv => "# " ++ ljust kv.1 14 ++ " = " ++ kv.2 ++ "\n")
          ++ ["# " ++ "\n"] :=
  ⟨rfl, rfl⟩

/-- C8: at a concrete profile and call, write_to does not append the
documented block: it stops with the NameError on datetime having written
only the three opening comment lines, so no timestamp, column header or
%12.6f row ever reaches the file. -/
theorem write_to_concrete_failure :
    writeTo (fun _ : ℚ => "") ⟨[1], [0], [0], [0], [0], [0], [1]⟩ [] true
        ("2026-01-01 00:00:00")
      = (["# " ++ dashes 48 ++ "\n", "# Lensing profile " ++ "\n", "# " ++ "\n"],
         some (PyError.nameError ("datetime"))) :=
  rfl

/-- Nonzero frequencies: away from index 0 the fftfreq grid value is
nonzero whenever the spacing is nonzero. -/
lemma fftfreq_ne_zero (n : ℕ) (d : ℝ) (i : ℕ) (hn : i < n) (h0 : i ≠ 0) (hd : d ≠ 0) :
    fftfreq n d i ≠ 0 := by
  unfold fftfreq
  have hnd : (n : ℝ) * d ≠ 0 :=
    mul_ne_zero (Nat.cast_ne_zero.mpr (by omega)) hd
  split
  · exact div_ne_zero (Nat.cast_ne_zero.mpr h0) hnd
  · have hlt : (i : ℝ) - n < 0 := by
      have : (i : ℝ) < n := by exact_mod_cast hn
      linarith
    exact div_ne_zero (ne_of_lt hlt) hnd

/-- C4: the inversion kernel vanishes exactly at the DC entry, and at
every other frequency pair of the grid the squared frequencies sum to a
positive number, the kernel equals the analytic formula, and its
magnitude equals one, hence is bounded with no divergent entry. -/
theorem inversion_kernel_dc_zero_unit_magnitude (n : ℕ) (dx dy : ℝ) (i j : ℕ)
    (hi : i < n) (hj : j < n) (hij : ¬(i = 0 ∧ j = 0)) (hdx : 0 < dx) (hdy : 0 < dy) :
    conjugate_inversion_kernel n dx dy 0 0 = 0
    ∧ 0 < fftfreq n dx i ^ 2 + fftfreq n dy j ^ 2
    ∧ conjugate_inversion_kernel n dx dy i j
        = (((fftfreq n dx i : ℝ) : ℂ) ^ 2 - ((fftfreq n dy j : ℝ) : ℂ) ^ 2
            - 2 * Complex.I * ((fftfreq n dx i : ℝ) : ℂ) * ((fftfreq n dy j : ℝ) : ℂ))
          / (((fftfreq n dx i : ℝ) : ℂ) ^ 2 + ((fftfreq n dy j : ℝ) : ℂ) ^ 2)
    ∧ Complex.abs (conjugate_inversion_kernel n dx dy i j) = 1 := by
  set a := fftfreq n dx i with ha_def
  set b := fftfreq n dy j with hb_def
  have hpos : 0 < a ^ 2 + b ^ 2 := by
    rcases not_and_or.mp hij with h | h
    · have ha := fftfreq_ne_zero n dx i hi h (ne_of_gt hdx)
      exact add_pos_of_pos_of_nonneg
        ((sq_nonneg a).lt_of_ne (Ne.symm (pow_ne_zero 2 ha))) (sq_nonneg b)
    · have hb := fftfreq_ne_zero n dy j hj h (ne_of_gt hdy)
      exact add_pos_of_nonneg_of_pos (sq_nonneg a)
        ((sq_nonneg b).lt_of_ne (Ne.symm (pow_ne_zero 2 hb)))
  refine ⟨by simp [conjugate_inversion_kernel], hpos, ?_, ?_⟩
  · unfold conjugate_inversion_kernel
    rw [if_neg hij]
  · unfold conjugate_inversion_kernel
    rw [if_neg hij]
    have hnum : ((a : ℂ) ^ 2 - (b : ℂ) ^ 2 - 2 * Complex.I * (a : ℂ) * (b : ℂ))
        = ((a : ℂ) - (b : ℂ) * Complex.I) ^ 2 := by
      linear_combination (-((b : ℂ) ^ 2)) * Complex.I_sq
    have hden : ((a : ℂ) ^ 2 + (b : ℂ) ^ 2) = ((a ^ 2 + b ^ 2 : ℝ) : ℂ) := by
      push_cast
      ring
    rw [hnum, hden, map_div₀, map_pow]
    have habs2 : Complex.abs ((a : ℂ) - (b : ℂ) * Complex.I) ^ 2 = a ^ 2 + b ^ 2 := by
      have hz : ((a : ℂ) - (b : ℂ) * Complex.I)
          = ((a : ℝ) : ℂ) + ((-b : ℝ) : ℂ) * Complex.I := by
        push_cast
        ring
      rw [hz, Complex.sq_abs, Complex.normSq_add_mul_I]
      ring
    rw [habs2, Complex.abs_ofReal, abs_of_pos hpos, div_self (ne_of_gt hpos)]

/-- C4 witness: the kernel theorem instantiated on the concrete 2 by 2
grid with unit spacings at the frequency pair (1, 0). -/
theorem inversion_kernel_dc_zero_unit_magnitude_witness :
    conjugate_inversion_kernel 2 1 1 0 0 = 0
    ∧ 0 < fftfreq 2 1 1 ^ 2 + fftfreq 2 1 0 ^ 2
    ∧ conjugate_inversion_kernel 2 1 1 1 0
        = (((fftfreq 2 1 1 : ℝ) : ℂ) ^ 2 - ((fftfreq 2 1 0 : ℝ) : ℂ) ^ 2
            - 2 * Complex.I * ((fftfreq 2 1 1 : ℝ) : ℂ) * ((fftfreq 2 1 0 : ℝ) : ℂ))
          / (((fftfreq 2 1 1 : ℝ) : ℂ) ^ 2 + ((fftfreq 2 1 0 : ℝ) : ℂ) ^ 2)
    ∧ Complex.abs (conjugate_inversion_kernel 2 1 1 1 0) = 1 :=
  inversion_kernel_dc_zero_unit_magnitude 2 1 1 1 0 (by decide) (by decide) (by decide)
    zero_lt_one zero_lt_one

/-- Entry of a list fetched with a default is a member when the index is
in range. -/
lemma getD_mem_of_lt {α : Type} (l : List α) (n : ℕ) (d : α) (h : n < l.length) :
    l.getD n d ∈ l := by
  induction l generalizing n with
  | nil => simp at h
  | cons a t ih =>
      cases n with
      | zero => simp
      | succ k =>
          simp only [List.getD_cons_succ]
          exact List.mem_cons_of_mem _ (ih k (by simpa using h))

/-- Head of a nondecreasing list bounds every member from below. -/
lemma pairwise_le_first {α : Type} [LinearOrderedField α] {b : α} {t : List α}
    (hp : (b :: t).Pairwise (· ≤ ·)) {y : α} (hy : y ∈ b :: t) : b ≤ y := by
  rcases List.mem_cons.mp hy with rfl | hy'
  · exact le_refl y
  · exact List.rel_of_pairwise_cons hp hy'

/-- Last entry of a nondecreasing list bounds every member from above. -/
lemma pairwise_le_last {α : Type} [LinearOrderedField α] :
    ∀ (bins : List α), bins.Pairwise (· ≤ ·) →
      ∀ y ∈ bins, y ≤ bins.getD (bins.length - 1) 0
  | [], _, y, hy => by simp at hy
  | [b], _, y, hy => by
      rcases List.mem_cons.mp hy with rfl | h
      · simp
      · simp at h
  | b :: c :: t, hp, y, hy => by
      have htail := (List.pairwise_cons.mp hp).2
      have hlast :
          (b :: c :: t).getD ((b :: c :: t).length - 1) 0
            = (c :: t).getD ((c :: t).length - 1) 0 := by
        simp [List.getD_cons_succ]
      rw [hlast]
      rcases List.mem_cons.mp hy with rfl | hy'
      · have hmem : (c :: t).getD ((c :: t).length - 1) 0 ∈ c :: t :=
          getD_mem_of_lt _ _ _ (by simp)
        exact (List.pairwise_cons.mp hp).1 _ hmem
      · exact pairwise_le_last (c :: t) htail y hy'

/-- Entries of a nondecreasing list are monotone in the index. -/
lemma pairwise_getD_mono {α : Type} [LinearOrderedField α] :
    ∀ (bins : List α), bins.Pairwise (· ≤ ·) → ∀ k m : ℕ, k ≤ m → m < bins.length →
      bins.getD k 0 ≤ bins.getD m 0
  | [], _, k, m, _, hm => by simp at hm
  | b :: t, hp, 0, 0, _, _ => le_refl _
  | b :: t, hp, 0, m + 1, _, hm => by
      simp only [List.getD_cons_zero, List.getD_cons_succ]
      have hmem : t.getD m 0 ∈ t := getD_mem_of_lt _ _ _ (by simpa using hm)
      exact (List.pairwise_cons.mp hp).1 _ hmem
  | b :: t, hp, k + 1, 0, hkm, _ => by omega
  | b :: t, hp, k + 1, m + 1, hkm, hm => by
      simp only [List.getD_cons_succ]
      exact pairwise_getD_mono t (List.pairwise_cons.mp hp).2 k m (by omega) (by simpa using hm)

/-- When x lies below every edge, digitize returns zero. -/
lemma digitize_zero_of_lt_all {α : Type} [LinearOrderedField α] {x : α} {bins : List α}
    (h : ∀ y ∈ bins, x < y) : digitize x bins = 0 := by
  rw [digitize, List.countP_eq_zero]
  intro y hy
  simp only [decide_eq_true_eq]
  exact not_le.mpr (h y hy)

/-- When every edge is at most x, digitize returns the number of edges. -/
lemma digitize_length_of_all_le {α : Type} [LinearOrderedField α] {x : α} {bins : List α}
    (h : ∀ y ∈ bins, y ≤ x) : digitize x bins = bins.length := by
  rw [digitize, List.countP_eq_length]
  intro y hy
  simp only [decide_eq_true_eq]
  exact h y hy

/-- Digitize never exceeds the number of edges. -/
lemma digitize_le_length {α : Type} [LinearOrderedField α] (x : α) (bins : List α) :
    digitize x bins ≤ bins.length :=
  List.countP_le_length _

/-- On a nondecreasing edge list, x lies strictly below the edge at the
digitize index when that index is in range. -/
lemma lt_getD_digitize {α : Type} [LinearOrderedField α] (x : α) :
    ∀ (bins : List α), bins.Pairwise (· ≤ ·) → digitize x bins < bins.length →
      x < bins.getD (digitize x bins) 0
  | [], _, h => by simp [digitize] at h
  | b :: t, hp, h => by
      by_cases hbx : b ≤ x
      · have hd : digitize x (b :: t) = digitize x t + 1 := by
          simp [digitize, List.countP_cons, hbx]
        rw [hd]
        simp only [List.getD_cons_succ]
        exact lt_getD_digitize x t (List.pairwise_cons.mp hp).2
          (by rw [hd] at h; simpa using h)
      · have ht0 : digitize x t = 0 := by
          apply digitize_zero_of_lt_all
          intro y hy
          exact lt_of_lt_of_le (not_le.mp hbx) ((List.pairwise_cons.mp hp).1 y hy)
        have hd : digitize x (b :: t) = 0 := by
          simp [digitize, List.countP_cons, hbx] at ht0 ⊢
          exact ht0
        rw [hd]
        simpa using not_le.mp hbx

/-- On a nondecreasing edge list, the edge just below the digitize index
is at most x when digitize is positive. -/
lemma getD_pred_digitize_le {α : Type} [LinearOrderedField α] (x : α) :
    ∀ (bins : List α), bins.Pairwise (· ≤ ·) → 0 < digitize x bins →
      bins.getD (digitize x bins - 1) 0 ≤ x
  | [], _, h => by simp [digitize] at h
  | b :: t, hp, h => by
      by_cases hbx : b ≤ x
      · have hd : digitize x (b :: t) = digitize x t + 1 := by
          simp [digitize, List.countP_cons, hbx]
        rw [hd]
        rcases Nat.eq_zero_or_pos (digitize x t) with h0 | hpos
        · rw [h0]
          simpa using hbx
        · have hshift : digitize x t + 1 - 1 = (digitize x t - 1) + 1 := by omega
          rw [hshift]
          simp only [List.getD_cons_succ]
          exact getD_pred_digitize_le x t (List.pairwise_cons.mp hp).2 hpos
      · exfalso
        have ht0 : digitize x t = 0 := by
          apply digitize_zero_of_lt_all
          intro y hy
          exact lt_of_lt_of_le (not_le.mp hbx) ((List.pairwise_cons.mp hp).1 y hy)
        have hd : digitize x (b :: t) = 0 := by
          simp [digitize, List.countP_cons, hbx] at ht0 ⊢
          exact ht0
        omega

/-- Bracket characterization of numpy digitize on a nondecreasing edge
list: the digitize value is i + 1 exactly when x lies in the right open
interval between edges i and i + 1. -/
lemma digitize_eq_iff {α : Type} [LinearOrderedField α] (x : α) (bins : List α)
    (hp : bins.Pairwise (· ≤ ·)) (i : ℕ) (hi : i + 1 < bins.length) :
    digitize x bins = i + 1 ↔ bins.getD i 0 ≤ x ∧ x < bins.getD (i + 1) 0 := by
  constructor
  · intro h
    refine ⟨?_, ?_⟩
    · have := getD_pred_digitize_le x bins hp (by omega)
      rw [h] at this
      simpa using this
    · have := lt_getD_digitize x bins hp (by omega)
      rw [h] at this
      exact this
  · rintro ⟨h1, h2⟩
    by_contra hne
    rcases Nat.lt_or_ge (digitize x bins) (i + 1) with hlt | hge
    · have hdl : digitize x bins < bins.length := by omega
      have hx := lt_getD_digitize x bins hp hdl
      have hmono := pairwise_getD_mono bins hp (digitize x bins) i (by omega) (by omega)
      exact absurd h1 (not_le.mpr (lt_of_lt_of_le hx hmono))
    · have hgt : i + 2 ≤ digitize x bins := by omega
      have hpos : 0 < digitize x bins := by omega
      have hx := getD_pred_digitize_le x bins hp hpos
      have hdl : digitize x bins - 1 < bins.length := by
        have := digitize_le_length x bins
        omega
      have hmono := pairwise_getD_mono bins hp (i + 1) (digitize x bins - 1) (by omega) hdl
      exact absurd h2 (not_lt.mpr (le_trans hmono hx))

/-- Boolean strict chain test implies the pairwise strict order. -/
lemma chainLtB_pairwise {α : Type} [LinearOrderedField α] :
    ∀ (bins : List α), chainLtB bins = true → bins.Pairwise (· < ·)
  | [], _ => List.Pairwise.nil
  | [a], _ => by simp
  | a :: b :: t, h => by
      have h' : (a < b) ∧ chainLtB (b :: t) = true := by
        simpa [chainLtB, Bool.and_eq_true] using h
      have hp := chainLtB_pairwise (b :: t) h'.2
      refine List.pairwise_cons.mpr ⟨?_, hp⟩
      intro y hy
      rcases List.mem_cons.mp hy with rfl | hy'
      · exact h'.1
      · exact lt_trans h'.1 (List.rel_of_pairwise_cons hp hy')

/-- C5: with strictly increasing edges, each galaxy lies in at most one
radial bin, membership in bin i is exactly right open interval
membership between edges i and i + 1, and a galaxy whose projected
distance lies below the first edge or above the last edge belongs to no
bin with index below nbin. -/
theorem bin_assignment_right_open_unique {α : Type} [LinearOrderedField α]
    (gals : List (SourceGal α)) (bins : List α) (g : SourceGal α)
    (hs : chainLtB bins = true) :
    (∀ i j : ℕ, g ∈ binMembers gals bins i → g ∈ binMembers gals bins j → i = j)
    ∧ (∀ i : ℕ, i + 1 < bins.length →
        (g ∈ binMembers gals bins i ↔
          g ∈ gals ∧ bins.getD i 0 ≤ g.d ∧ g.d < bins.getD (i + 1) 0))
    ∧ ((g.d < bins.getD 0 0 ∨ bins.getD (bins.length - 1) 0 < g.d) →
        ∀ i : ℕ, i < bins.length - 1 → g ∉ binMembers gals bins i) := by
  have hplt := chainLtB_pairwise bins hs
  have hple : bins.Pairwise (· ≤ ·) := hplt.imp le_of_lt
  have hmem : ∀ i : ℕ, g ∈ binMembers gals bins i ↔ g ∈ gals ∧ digitize g.d bins = i + 1 := by
    intro i
    rw [binMembers, List.mem_filter]
    simp only [decide_eq_true_eq]
    constructor
    · rintro ⟨h1, h2⟩
      exact ⟨h1, by omega⟩
    · rintro ⟨h1, h2⟩
      exact ⟨h1, by omega⟩
  refine ⟨?_, ?_, ?_⟩
  · intro i j hi hj
    have h1 := ((hmem i).mp hi).2
    have h2 := ((hmem j).mp hj).2
    omega
  · intro i hi
    rw [hmem i, digitize_eq_iff g.d bins hple i hi]
  · intro hout i hilen hin
    have hd := ((hmem i).mp hin).2
    rcases hout with hlow | hhigh
    · have h0 : digitize g.d bins = 0 := by
        apply digitize_zero_of_lt_all
        intro y hy
        rcases bins with _ | ⟨b, t⟩
        · simp at hy
        · exact lt_of_lt_of_le hlow (pairwise_le_first hple hy)
      omega
    · have hall : digitize g.d bins = bins.length := by
        apply digitize_length_of_all_le
        intro y hy
        exact le_of_lt (lt_of_le_of_lt (pairwise_le_last bins hple y hy) hhigh)
      omega

/-- C5 witness: the bin assignment theorem instantiated on one concrete
galaxy at projected distance 3 against the edges 1, 2, 4, membership in
bin index 1. -/
theorem bin_assignment_right_open_unique_witness :
    (⟨3, 0, 0, 1, 0, 1⟩ : SourceGal ℚ) ∈
        binMembers [(⟨3, 0, 0, 1, 0, 1⟩ : SourceGal ℚ)] [1, 2, 4] 1 ↔
      (⟨3, 0, 0, 1, 0, 1⟩ : SourceGal ℚ) ∈ [(⟨3, 0, 0, 1, 0, 1⟩ : SourceGal ℚ)]
        ∧ ([(1 : ℚ), 2, 4].getD 1 0 ≤ 3 ∧ (3 : ℚ) < [(1 : ℚ), 2, 4].getD 2 0) :=
  (bin_assignment_right_open_unique [(⟨3, 0, 0, 1, 0, 1⟩ : SourceGal ℚ)] [1, 2, 4]
    (⟨3, 0, 0, 1, 0, 1⟩ : SourceGal ℚ) (by decide)).2.1 1 (by decide)

/-- C2: for every non empty radial bin the per galaxy weights are the
catalog weights divided by the squared critical surface density, the
calibration factor is one plus the weighted average of the catalog m
values under those weights, and the tangential and cross shear estimates
are the weighted averages of et times sigma_critic and of ex times
sigma_critic under those weights, divided by the calibration factor. -/
theorem profile_bin_weighted_estimates {α : Type} [LinearOrderedField α]
    (gals : List (SourceGal α)) (bins : List α) (i : ℕ)
    (hN : binCount gals bins i ≠ 0) :
    weightsAt gals bins i = (binMembers gals bins i).map (fun g => g.w / g.sc ^ 2)
    ∧ mcalAt gals bins i
        = 1 + wavg ((binMembers gals bins i).map SourceGal.m) (weightsAt gals bins i)
    ∧ shearAt gals bins i
        = wavg ((binMembers gals bins i).map (fun g => g.et * g.sc)) (weightsAt gals bins i)
            / mcalAt gals bins i
    ∧ ceroAt gals bins i
        = wavg ((binMembers gals bins i).map (fun g => g.ex * g.sc)) (weightsAt gals bins i)
            / mcalAt gals bins i := by
  refine ⟨rfl, ?_, ?_, ?_⟩ <;> simp [mcalAt, shearAt, ceroAt, hN]

/-- C2 witness: the weighted estimate theorem instantiated on one
concrete galaxy filling bin 0 of the edge list 0, 2. -/
theorem profile_bin_weighted_estimates_witness :
    weightsAt [(⟨1, 1, 0, 1, 0, 1⟩ : SourceGal ℚ)] [0, 2] 0
        = (binMembers [(⟨1, 1, 0, 1, 0, 1⟩ : SourceGal ℚ)] [0, 2] 0).map
            (fun g => g.w / g.sc ^ 2)
    ∧ mcalAt [(⟨1, 1, 0, 1, 0, 1⟩ : SourceGal ℚ)] [0, 2] 0
        = 1 + wavg ((binMembers [(⟨1, 1, 0, 1, 0, 1⟩ : SourceGal ℚ)] [0, 2] 0).map
              SourceGal.m)
            (weightsAt [(⟨1, 1, 0, 1, 0, 1⟩ : SourceGal ℚ)] [0, 2] 0)
    ∧ shearAt [(⟨1, 1, 0, 1, 0, 1⟩ : SourceGal ℚ)] [0, 2] 0
        = wavg ((binMembers [(⟨1, 1, 0, 1, 0, 1⟩ : SourceGal ℚ)] [0, 2] 0).map
              (fun g => g.et * g.sc))
            (weightsAt [(⟨1, 1, 0, 1, 0, 1⟩ : SourceGal ℚ)] [0, 2] 0)
            / mcalAt [(⟨1, 1, 0, 1, 0, 1⟩ : SourceGal ℚ)] [0, 2] 0
    ∧ ceroAt [(⟨1, 1, 0, 1, 0, 1⟩ : SourceGal ℚ)] [0, 2] 0
        = wavg ((binMembers [(⟨1, 1, 0, 1, 0, 1⟩ : SourceGal ℚ)] [0, 2] 0).map
              (fun g => g.ex * g.sc))
            (weightsAt [(⟨1, 1, 0, 1, 0, 1⟩ : SourceGal ℚ)] [0, 2] 0)
            / mcalAt [(⟨1, 1, 0, 1, 0, 1⟩ : SourceGal ℚ)] [0, 2] 0 :=
  profile_bin_weighted_estimates [(⟨1, 1, 0, 1, 0, 1⟩ : SourceGal ℚ)] [0, 2] 0 (by decide)

/-- C6: a bin with zero member galaxies keeps the default zero values for
the tangential shear, the cross shear, both bootstrap errors and the
analytic statistical error, and never triggers the zero weight division
hazard, so an empty bin cannot make the construction raise. -/
theorem empty_bin_zero_stats {α : Type} [LinearOrderedField α] (sq : α → α)
    (gals : List (SourceGal α)) (bins : List α) (bflag : Bool) (nboot g i : ℕ)
    (hN : binCount gals bins i = 0) :
    shearAt gals bins i = 0
    ∧ ceroAt gals bins i = 0
    ∧ shearErrorAt sq gals bins bflag nboot g i = 0
    ∧ ceroErrorAt sq gals bins bflag nboot g i = 0
    ∧ statErrorAt sq gals bins i = 0
    ∧ hazardAt gals bins i = false := by
  refine ⟨?_, ?_, ?_, ?_, ?_, ?_⟩ <;>
    simp [shearAt, ceroAt, shearErrorAt, ceroErrorAt, statErrorAt, hazardAt, hN]

/-- C6 witness: the empty bin theorem instantiated on a concrete catalog
whose single galaxy falls in bin 0, leaving bin 1 of the edges 0, 2, 4
empty, with bootstrapping enabled. -/
theorem empty_bin_zero_stats_witness :
    shearAt [(⟨1, 1, 0, 1, 0, 1⟩ : SourceGal ℚ)] [0, 2, 4] 1 = 0
    ∧ ceroAt [(⟨1, 1, 0, 1, 0, 1⟩ : SourceGal ℚ)] [0, 2, 4] 1 = 0
    ∧ shearErrorAt id [(⟨1, 1, 0, 1, 0, 1⟩ : SourceGal ℚ)] [0, 2, 4] true 3 0 1 = 0
    ∧ ceroErrorAt id [(⟨1, 1, 0, 1, 0, 1⟩ : SourceGal ℚ)] [0, 2, 4] true 3 0 1 = 0
    ∧ statErrorAt id [(⟨1, 1, 0, 1, 0, 1⟩ : SourceGal ℚ)] [0, 2, 4] 1 = 0
    ∧ hazardAt [(⟨1, 1, 0, 1, 0, 1⟩ : SourceGal ℚ)] [0, 2, 4] 1 = false :=
  empty_bin_zero_stats id [(⟨1, 1, 0, 1, 0, 1⟩ : SourceGal ℚ)] [0, 2, 4] true 3 0 1
    (by decide)

/-- Mapping a function that is constantly a over an index range yields a
replicate list. -/
lemma map_range_eq_replicate {β : Type} (f : ℕ → β) (n : ℕ) (a : β)
    (hf : ∀ k, f k = a) : (List.range n).map f = List.replicate n a := by
  induction n with
  | zero => simp
  | succ m ih =>
      rw [List.range_succ, List.map_append, ih, List.replicate_succ']
      simp [hf m]

/-- C3 counterexample: constructing a profile from the empty catalog with
valid edges succeeds with an all zero profile instead of failing with
InvalidInputError. -/
theorem profile_empty_catalog_ok :
    buildProfile (α := ℚ) id [] [0, 2] false 0 0
      = Except.ok { r_hMpc := midpoints [0, 2]
                    shear := [0]
                    cero := [0]
                    shear_error := [0]
                    cero_error := [0]
                    stat_error := [0]
                    N := [0] } := rfl

/-- C3 amended: profile construction never fails with InvalidInputError;
in particular on an empty catalog with edges accepted by the numpy
digitize monotonicity check it completes and returns the all zero
profile. Zero or negative DS produces a non finite sigma_critic upstream
without raising, and non strictly increasing edges only raise the numpy
ValueError when they are not monotone. -/
theorem profile_no_invalid_input_error {α : Type} [LinearOrderedField α] (sq : α → α)
    (gals : List (SourceGal α)) (bins : List α) (bflag : Bool) (nboot g : ℕ) :
    (∀ e : PyError, buildProfile sq gals bins bflag nboot g = Except.error e →
        e ≠ PyError.invalidInputError)
    ∧ (gals = [] → npMonotone bins = true →
        buildProfile sq gals bins bflag nboot g
          = Except.ok { r_hMpc := midpoints bins
                        shear := List.replicate (bins.length - 1) 0
                        cero := List.replicate (bins.length - 1) 0
                        shear_error := List.replicate (bins.length - 1) 0
                        cero_error := List.replicate (bins.length - 1) 0
                        stat_error := List.replicate (bins.length - 1) 0
                        N := List.replicate (bins.length - 1) 0 }) := by
  constructor
  · intro e he
    rw [buildProfile] at he
    split at he
    · injection he with h
      subst h
      decide
    · split at he
      · injection he with h
        subst h
        decide
      · exact absurd he (by simp)
  · intro hgals hmono
    subst hgals
    have hcnt : ∀ k : ℕ, binCount (α := α) [] bins k = 0 := fun k => rfl
    have hz : hazardAny (α := α) [] bins = false := by
      simp [hazardAny, hazardAt, hcnt]
    rw [buildProfile, if_neg (by simp [hmono]), if_neg (by simp [hz])]
    have hout : profileOut sq ([] : List (SourceGal α)) bins bflag nboot g
        = { r_hMpc := midpoints bins
            shear := List.replicate (bins.length - 1) 0
            cero := List.replicate (bins.length - 1) 0
            shear_error := List.replicate (bins.length - 1) 0
            cero_error := List.replicate (bins.length - 1) 0
            stat_error := List.replicate (bins.length - 1) 0
            N := List.replicate (bins.length - 1) 0 } := by
      unfold profileOut
      congr 1
      · exact map_range_eq_replicate _ _ _ (fun k => by simp [shearAt, hcnt k])
      · exact map_range_eq_replicate _ _ _ (fun k => by simp [ceroAt, hcnt k])
      · exact map_range_eq_replicate _ _ _ (fun k => by simp [shearErrorAt, hcnt k])
      · exact map_range_eq_replicate _ _ _ (fun k => by simp [ceroErrorAt, hcnt k])
      · exact map_range_eq_replicate _ _ _ (fun k => by simp [statErrorAt, hcnt k])
      · exact map_range_eq_replicate _ _ _ (fun k => hcnt k)
    rw [hout]

/-- C3 witness: the amended theorem instantiated on the empty rational
catalog with edges 1, 3, bootstrapping enabled. -/
theorem profile_no_invalid_input_error_witness :
    buildProfile (α := ℚ) id [] [1, 3] true 2 5
      = Except.ok { r_hMpc := midpoints [1, 3]
                    shear := List.replicate 1 0
                    cero := List.replicate 1 0
                    shear_error := List.replicate 1 0
                    cero_error := List.replicate 1 0
                    stat_error := List.replicate 1 0
                    N := List.replicate 1 0 } :=
  (profile_no_invalid_input_error id [] [1, 3] true 2 5).2 rfl (by decide)
